import Mathlib

/-!
Shallow embedding of the `gohttp` HTTP/1.1 codec (package `gohttp`), as
implemented in the repository's main source file: `AllowLFLineEndings`,
`ParseRequest`, `SerializeRequest`, `ParseResponse`, `parseRequestLine`,
`parseHeaderField`, `determineBodyLength` and `isNewLine`.

A byte stream is modelled as a `List Char` (all inputs of interest are
ASCII).  A `*bufio.Reader` is modelled by explicit state passing: each
read returns the data read together with the remaining stream.  The only
read error a pure in-memory stream can produce is end-of-stream, so Go's
`error` results are modelled by the inductive `GErr` below, whose `errEOF`
constructor stands for `io.EOF`.  A Go function returning
`(*http.Request, error)` is modelled as `Except GErr (Option Request)`:
`Except.error e` is a non-nil error, `Except.ok none` is the `nil, nil`
return, `Except.ok (some r)` is a non-nil request with nil error.
-/

namespace GoHttp

/-- Error values produced by the codec.  The Go source creates them with
`errors.New`; each constructor corresponds to one error message (or to
`io.EOF`). -/
inductive GErr where
  /-- models `io.EOF` -/
  | errEOF
  /-- models `errors.New "invalid request line syntax"` -/
  | badRequestLine
  /-- models `errors.New "invalid header field syntax"` -/
  | badHeaderField
  /-- models `errors.New "empty line after header section is missing"` -/
  | missingEmptyLine
  /-- models `errors.New "wrong body length"` -/
  | wrongBodyLength
  /-- models the `net/url` control-character parse error -/
  | badURLCtl
  deriving DecidableEq, Repr

/-- The two-character CRLF line terminator. -/
def crlfL : List Char := ['\r', '\n']

/-- A bare LF line terminator. -/
def lfL : List Char := ['\n']

/-- Models `unicode.IsSpace` restricted to the characters that can occur
in this development's ASCII/Latin-1 inputs: space, tab, LF, VT, FF, CR,
NEL and NBSP. -/
def isSpaceChar (c : Char) : Bool :=
  c.toNat == 32 || (9 ≤ c.toNat && c.toNat ≤ 13) || c.toNat == 0x85 || c.toNat == 0xA0

/-- Models `strings.TrimLeftFunc s unicode.IsSpace` (the leading half of
`strings.TrimSpace`). -/
def trimLeftSpace (s : List Char) : List Char :=
  s.dropWhile isSpaceChar

/-- Models `strings.TrimRightFunc s unicode.IsSpace` (the trailing half of
`strings.TrimSpace`). -/
def trimRightSpace (s : List Char) : List Char :=
  (s.reverse.dropWhile isSpaceChar).reverse

/-- Models `strings.TrimSpace`. -/
def trimSpace (s : List Char) : List Char :=
  trimRightSpace (trimLeftSpace s)

/-- Models `strings.TrimSuffix s "\n"`. -/
def trimSuffixLF (s : List Char) : List Char :=
  if s.getLast? == some '\n' then s.dropLast else s

/-- Models one call of `bufio.Reader.ReadString('\n')` on the remaining
stream: returns the line read (terminator included when one was found),
the rest of the stream, and whether the read ended with `io.EOF` (the
delimiter was never found). -/
def readLine : List Char → List Char × List Char × Bool
  | [] => ([], [], true)
  | c :: cs =>
    if c == '\n' then ([c], cs, false)
    else
      let r := readLine cs
      (c :: r.1, r.2.1, r.2.2)

/-- Digit value of a character as computed by Go's `strconv` lower-casing
conversion; `none` for characters that are not alphanumeric. -/
def digitVal (c : Char) : Option Nat :=
  if 48 ≤ c.toNat && c.toNat ≤ 57 then some (c.toNat - 48)
  else if 97 ≤ c.toNat && c.toNat ≤ 122 then some (c.toNat - 97 + 10)
  else if 65 ≤ c.toNat && c.toNat ≤ 90 then some (c.toNat - 65 + 10)
  else none

/-- One digit-accumulation step of `strconv.ParseUint`. -/
def digitStep (base : Nat) (acc : Option Nat) (c : Char) : Option Nat :=
  match acc, digitVal c with
  | some n, some d => if d < base then some (n * base + d) else none
  | _, _ => none

/-- Value of an unsigned digit string in the given base, as accumulated by
`strconv.ParseUint`; `none` when the string is empty or contains a
character that is not a digit of the base. -/
def parseUintDigits (base : Nat) (cs : List Char) : Option Nat :=
  if cs.isEmpty then none
  else cs.foldl (digitStep base) (some 0)

/-- Decimal digit test, `'0'` through `'9'`. -/
def isDecDigit (c : Char) : Bool :=
  48 ≤ c.toNat && c.toNat ≤ 57

/-- Hexadecimal digit test, `'0'`–`'9'`, `'a'`–`'f'`, `'A'`–`'F'`. -/
def isHexDigit (c : Char) : Bool :=
  isDecDigit c || (97 ≤ c.toNat && c.toNat ≤ 102) ||
    (65 ≤ c.toNat && c.toNat ≤ 70)

/-- Mathematical value of a decimal digit string. -/
def decValue (cs : List Char) : Nat :=
  cs.foldl (fun n c => n * 10 + (c.toNat - 48)) 0

/-- Mathematical value of one hexadecimal digit. -/
def hexDigitValue (c : Char) : Nat :=
  if c.toNat ≤ 57 then c.toNat - 48
  else if c.toNat ≤ 70 then c.toNat - 55
  else c.toNat - 87

/-- Mathematical value of a hexadecimal digit string. -/
def hexValue (cs : List Char) : Nat :=
  cs.foldl (fun n c => n * 16 + hexDigitValue c) 0

/-- Splits an optional leading sign off a numeral, as `strconv.ParseInt`
does (`if s[0] == '+' || s[0] == '-'`); returns (negative?, remaining
digits). -/
def splitSign (cs : List Char) : Bool × List Char :=
  match cs with
  | [] => (false, [])
  | c :: rest =>
    if c == '+' then (false, rest)
    else if c == '-' then (true, rest)
    else (false, c :: rest)

/-- Models `strconv.ParseInt s base 64` in the success/failure view the
codec uses (its caller treats any error, syntax or range, as failure):
`some v` exactly when Go returns `v` with a nil error. -/
def parseIntGo (base : Nat) (cs : List Char) : Option Int :=
  if cs.isEmpty then none
  else
    let sg := splitSign cs
    match parseUintDigits base sg.2 with
    | none => none
    | some un =>
      if un > 2 ^ 64 - 1 then none
      else if !sg.1 && un > 2 ^ 63 - 1 then none
      else if sg.1 && un > 2 ^ 63 then none
      else some (if sg.1 then -(un : Int) else (un : Int))

/-- Clamps an integer into the `int64` range, as `strconv.ParseInt` does
when it reports a range error. -/
def clampInt64 (v : Int) : Int :=
  if v > 2 ^ 63 - 1 then 2 ^ 63 - 1
  else if v < -(2 ^ 63 : Int) then -(2 ^ 63 : Int)
  else v

/-- Models the value of `length, _ := strconv.Atoi s` with the error
discarded, exactly as `determineBodyLength` uses it: 0 on a syntax error,
the clamped value on a range error, the parsed value otherwise. -/
def atoiVal (cs : List Char) : Int :=
  if cs.isEmpty then 0
  else
    let sg := splitSign cs
    match parseUintDigits 10 sg.2 with
    | none => 0
    | some n => clampInt64 (if sg.1 then -(n : Int) else (n : Int))

/-- Byte validity test of `net/textproto`'s `validHeaderFieldByte`
(`isTokenTable`): ASCII alphanumerics and the token punctuation
characters of RFC 7230. -/
def validHeaderFieldChar (c : Char) : Bool :=
  let n := c.toNat
  (48 ≤ n && n ≤ 57) || (65 ≤ n && n ≤ 90) || (97 ≤ n && n ≤ 122) ||
  n == 33 || n == 35 || n == 36 || n == 37 || n == 38 || n == 39 || n == 42 ||
  n == 43 || n == 45 || n == 46 || n == 94 || n == 95 || n == 96 ||
  n == 124 || n == 126

/-- The case-mapping loop of `textproto.CanonicalMIMEHeaderKey`: upper-case
a letter at the start or after a hyphen, lower-case every other letter. -/
def canonChars : Bool → List Char → List Char
  | _, [] => []
  | upper, c :: cs =>
    (if upper then c.toUpper else c.toLower) :: canonChars (c == '-') cs

/-- Models `textproto.CanonicalMIMEHeaderKey`, which `http.Header.Add` and
`http.Header.Get` apply to every key: the canonical case mapping when all
characters are valid header-field bytes, the key unchanged otherwise. -/
def canonicalMIMEHeaderKey (s : List Char) : List Char :=
  if s.all validHeaderFieldChar then canonChars true s else s

/-- Models `http.Header` (`map[string][]string`).  Go's map has no
iteration order; the association list is the determinization used here,
preserving first-insertion order of keys. -/
abbrev Header := List (List Char × List (List Char))

/-- Models `http.Header.Add`: canonicalize the key, then append the value
to the key's slice (creating the entry when absent). -/
def headerAdd (hdr : Header) (key val : List Char) : Header :=
  let k := canonicalMIMEHeaderKey key
  if hdr.any (fun e => e.1 == k) then
    hdr.map (fun e => if e.1 == k then (e.1, e.2 ++ [val]) else e)
  else hdr ++ [(k, [val])]

/-- Models `http.Header.Get`: canonicalize the key and return the first
value of its slice, or the empty string when the key is absent or its
slice is empty. -/
def headerGet (hdr : Header) (key : List Char) : List Char :=
  let k := canonicalMIMEHeaderKey key
  match hdr.find? (fun e => e.1 == k) with
  | some e =>
    match e.2 with
    | [] => []
    | v :: _ => v
  | none => []

/-- Models `isNewLine` from the source: with LF endings allowed a line is
blank when it is `"\r\n"` or `"\n"`, otherwise only when it is `"\r\n"`. -/
def isNewLine (allowLFLineEndings : Bool) (line : List Char) : Bool :=
  if allowLFLineEndings then line == crlfL || line == lfL
  else line == crlfL

/-- Models `strings.SplitN line sep 2` for a one-character separator:
`[line]` when the separator does not occur, otherwise the parts before and
after its first occurrence. -/
def splitN2 (sep : Char) (s : List Char) : List (List Char) :=
  if s.contains sep then
    [s.takeWhile (fun c => c != sep), (s.dropWhile (fun c => c != sep)).drop 1]
  else [s]

/-- Models `parseHeaderField` from the source: split at the first colon,
require exactly two tokens, trim the name, trim the value after stripping
a trailing LF. -/
def parseHeaderField (line : List Char) :
    Except GErr (List Char × List Char) :=
  match splitN2 ':' line with
  | [t0, t1] => .ok (trimSpace t0, trimSpace (trimSuffixLF t1))
  | _ => .error .badHeaderField

/-- Models `url.Parse` for the URI-reference targets occurring in this
development: Go's parser fails on ASCII control characters and otherwise
returns a `*url.URL` whose `String()` reproduces such plain targets
unchanged, so the URL is recorded as its raw text. -/
def urlParse (s : List Char) : Except GErr (List Char) :=
  if s.any (fun c => c.toNat < 32 || c.toNat == 127) then .error .badURLCtl
  else .ok s

/-- Models `parseRequestLine` from the source: split on single spaces,
require exactly three tokens, strip one trailing LF from each, and parse
the target as a URL. -/
def parseRequestLine (line : List Char) :
    Except GErr (List Char × List Char × List Char) :=
  match line.splitOn ' ' with
  | [d0, d1, d2] =>
    let method := trimSuffixLF d0
    let target := trimSuffixLF d1
    let protocol := trimSuffixLF d2
    match urlParse target with
    | .error e => .error e
    | .ok u => .ok (method, u, protocol)
  | _ => .error .badRequestLine

/-- Models `determineBodyLength headers r` from the source, with the
`*bufio.Reader` as explicit state: returns the resolved length and the
remaining stream.  When `Transfer-Encoding` is set, one further line is
read and its content, trailing whitespace removed, is parsed as a hex
integer; every read or parse failure silently resolves to 0 (the second
EOF check in the source is unreachable and the `strconv` error is dropped).
Otherwise a present `Content-Length` is converted with `strconv.Atoi`,
its error discarded.  Otherwise the length is 0. -/
def determineBodyLength (headers : Header) (s : List Char) :
    Int × List Char :=
  if headerGet headers "Transfer-Encoding".toList != [] then
    let r := readLine s
    if r.2.2 then (0, r.2.1)
    else
      match parseIntGo 16 (trimRightSpace r.1) with
      | none => (0, r.2.1)
      | some v => (v, r.2.1)
  else if headerGet headers "Content-Length".toList != [] then
    (atoiVal (headerGet headers "Content-Length".toList), s)
  else (0, s)

/-- The blank-line-skipping loop at the top of `ParseRequest`, with an
explicit fuel argument for structural recursion.  Each iteration consumes
at least one character of the stream (a skipped blank line is nonempty),
so any fuel exceeding the stream length makes the 0 case unreachable; the
wrapper `skipBlanks` supplies such a fuel and `skipBlanksF_fuel` proves
the fuel irrelevant. -/
def skipBlanksF (allowLF : Bool) : Nat → List Char →
    Except GErr (List Char × List Char)
  | 0, _ => .error .errEOF
  | fuel + 1, s =>
    let r := readLine s
    if r.2.2 then .error .errEOF
    else if isNewLine allowLF r.1 then skipBlanksF allowLF fuel r.2.1
    else .ok (r.1, r.2.1)

/-- The loop in `ParseRequest` that skips blank lines before the request
line: any `ReadString` error (here: end-of-stream) is fatal; a blank line
is skipped; the first non-blank line is returned with the rest of the
stream. -/
def skipBlanks (allowLF : Bool) (s : List Char) :
    Except GErr (List Char × List Char) :=
  skipBlanksF allowLF (s.length + 1) s

/-- The header-reading loop of `ParseRequest`, with explicit fuel (see
`skipBlanksF`).  Mirrors the source: a non-EOF read error would abort (a
pure stream has none), EOF or a blank line ends the loop, the redundant
`line == "\r\n"` break from the source is kept, and every other line is
parsed as a header field and added to the header map.  Returns the last
line read (the loop variable that outlives the loop in the source), the
accumulated headers, and the remaining stream. -/
def readHeadersF (allowLF : Bool) : Nat → List Char → Header →
    Except GErr (List Char × Header × List Char)
  | 0, _, _ => .error .errEOF
  | fuel + 1, s, hdr =>
    let r := readLine s
    if r.2.2 || isNewLine allowLF r.1 then .ok (r.1, hdr, r.2.1)
    else if r.1 == crlfL then .ok (r.1, hdr, r.2.1)
    else
      match parseHeaderField r.1 with
      | .error e => .error e
      | .ok nv => readHeadersF allowLF fuel r.2.1 (headerAdd hdr nv.1 nv.2)

/-- The header-reading loop of `ParseRequest` (see `readHeadersF`). -/
def readHeaders (allowLF : Bool) (s : List Char) (hdr : Header) :
    Except GErr (List Char × Header × List Char) :=
  readHeadersF allowLF (s.length + 1) s hdr

instance {ε α : Type} [DecidableEq ε] [DecidableEq α] :
    DecidableEq (Except ε α)
  | .ok x, .ok y => decidable_of_iff (x = y) (by simp)
  | .error x, .error y => decidable_of_iff (x = y) (by simp)
  | .ok _, .error _ => .isFalse (by simp)
  | .error _, .ok _ => .isFalse (by simp)

/-- Models `http.Request` as the codec uses it: method, URL (recorded as
its raw text, see `urlParse`), protocol, headers, and the `Body` field.
`Body` is an `io.ReadCloser`: `none` models a nil interface value, and a
present reader is modelled by the outcome of draining it — `.error e` for
a reader whose read fails with `e`, `.ok bs` for one yielding `bs`. -/
structure Request where
  method : List Char
  url : List Char
  proto : List Char
  header : Header := []
  body : Option (Except GErr (List Char)) := none
  deriving DecidableEq, Repr

/-- Models `http.Response` for the fields the spec names. -/
structure Response where
  proto : List Char
  statusCode : Int
  reason : List Char
  deriving DecidableEq, Repr

/-- Models `ParseRequest` from the source.  The result `Except.ok none`
models the `return nil, nil` statements of the source (nil request, nil
error); no code path of the source returns a non-nil request.  The body
branch models `r.Read(body)` on the buffered stream: EOF when nothing is
left, otherwise up to `length` bytes in one read, then the `n != length`
check; the read body is only printed (`fmt.Println`), never stored. -/
def parseRequest (allowLFLineEndings : Bool) (s : List Char) :
    Except GErr (Option Request) :=
  match skipBlanks allowLFLineEndings s with
  | .error e => .error e
  | .ok (line0, s1) =>
    match parseRequestLine line0 with
    | .error e => .error e
    | .ok _mup =>
      match readHeaders allowLFLineEndings s1 [] with
      | .error e => .error e
      | .ok (lastLine, hdr, s2) =>
        if lastLine ≠ crlfL then .error .missingEmptyLine
        else
          let lr := determineBodyLength hdr s2
          if lr.1 > 0 then
            if lr.2.isEmpty then .error .errEOF
            else if min lr.1 (Int.ofNat lr.2.length) ≠ lr.1 then
              .error .wrongBodyLength
            else .ok none
          else .ok none

/-- Joins the values of one header name with `", "`, as the inner loop of
`SerializeRequest` does (RFC 7230 §3.2.6). -/
def joinComma : List (List Char) → List Char
  | [] => []
  | [v] => v
  | v :: vs => v ++ (',' :: ' ' :: joinComma vs)

/-- The header-section bytes written by `SerializeRequest`'s loop: one
`Name: value1, value2CRLF` line per header name, in the iteration order
of the `Header` model. -/
def headerLines (hdr : Header) : List Char :=
  hdr.foldl (fun acc e => acc ++ e.1 ++ (':' :: ' ' :: joinComma e.2) ++ crlfL) []

/-- Models `SerializeRequest` from the source.  The outer `Option` is
definedness: `none` models the nil-pointer panic of
`ioutil.ReadAll(r.Body)` on a nil `Body`; with a non-nil body the
function returns the read error if draining the body fails, and otherwise
the start-line and header lines — followed by a blank line and the body
bytes only when the body is non-empty. -/
def serializeRequest (r : Request) : Option (Except GErr (List Char)) :=
  match r.body with
  | none => none
  | some (.error e) => some (.error e)
  | some (.ok bodyBytes) =>
    let buf := r.method ++ (' ' :: r.url) ++ (' ' :: r.proto) ++ crlfL ++
      headerLines r.header
    if bodyBytes.length == 0 then some (.ok buf)
    else some (.ok (buf ++ crlfL ++ bodyBytes))

/-- Models `ParseResponse` from the source, which is the stub
`return nil, nil`: every input yields a nil response and nil error. -/
def parseResponse (_s : List Char) : Except GErr (Option Response) :=
  .ok none

/-- Models `SerializeResponse` from the source, which is the stub
`return nil, nil`. -/
def serializeResponse (_r : Response) : Option (Except GErr (List Char)) :=
  some (.ok [])

/-- Models the package-level variable `allowLFLineEndings` and its
initializer `= false`. -/
def allowLFLineEndingsInit : Bool := false

/-- Models the exported setter `AllowLFLineEndings`, which overwrites the
package-level variable: given the previous value of the global it returns
the new one. -/
def AllowLFLineEndings (allow : Bool) (_prev : Bool) : Bool := allow

/-- The request of the repository's `TestSerializeRequest` test case:
method GET, target `/`, protocol HTTP/1.1, headers
`Host: example.com` and `Transfer-Encoding: [gzip, chunked]`, and
`http.NoBody` (a reader yielding no bytes). -/
def c2Request : Request :=
  { method := "GET".toList
    url := "/".toList
    proto := "HTTP/1.1".toList
    header := [("Host".toList, ["example.com".toList]),
      ("Transfer-Encoding".toList, ["gzip".toList, "chunked".toList])]
    body := some (.ok []) }

/-!
Helper lemmas.  The two loop embeddings carry a fuel argument so that they
are structurally recursive (and hence kernel-computable); the `_fuel`
lemmas show that any fuel exceeding the stream length gives the same
result, so the wrappers `skipBlanks`/`readHeaders` denote the Go loops.
The digit lemmas relate Go's `strconv` accumulation to the mathematical
value of a digit string.
-/

/-- A `ReadString` call that did not hit end-of-stream consumed at least
the line terminator, so the remaining stream is strictly shorter. -/
theorem readLine_not_eof_lt (s : List Char) (h : (readLine s).2.2 = false) :
    (readLine s).2.1.length < s.length := by
  induction s with
  | nil => simp [readLine] at h
  | cons c cs ih =>
    by_cases hc : c == '\n'
    · simp [readLine, hc]
    · simp only [readLine, hc, Bool.false_eq_true, if_false] at h ⊢
      exact Nat.lt_succ_of_lt (ih h)

/-- Fuel irrelevance for the blank-line-skipping loop. -/
theorem skipBlanksF_fuel (a : Bool) :
    ∀ (fuel fuel' : Nat) (s : List Char), s.length < fuel → s.length < fuel' →
      skipBlanksF a fuel s = skipBlanksF a fuel' s := by
  intro fuel
  induction fuel with
  | zero => intro fuel' s h _; exact absurd h (Nat.not_lt_zero _)
  | succ n ih =>
    intro fuel' s h h'
    cases fuel' with
    | zero => exact absurd h' (Nat.not_lt_zero _)
    | succ m =>
      simp only [skipBlanksF]
      by_cases he : (readLine s).2.2
      · simp [he]
      · simp only [he, Bool.false_eq_true, if_false]
        by_cases hb : isNewLine a (readLine s).1
        · simp only [hb, if_true]
          have hlt := readLine_not_eof_lt s (by simpa using he)
          exact ih m (readLine s).2.1 (by omega) (by omega)
        · simp [hb]

/-- Fuel irrelevance for the header-reading loop. -/
theorem readHeadersF_fuel (a : Bool) :
    ∀ (fuel fuel' : Nat) (s : List Char) (hdr : Header),
      s.length < fuel → s.length < fuel' →
      readHeadersF a fuel s hdr = readHeadersF a fuel' s hdr := by
  intro fuel
  induction fuel with
  | zero => intro fuel' s hdr h _; exact absurd h (Nat.not_lt_zero _)
  | succ n ih =>
    intro fuel' s hdr h h'
    cases fuel' with
    | zero => exact absurd h' (Nat.not_lt_zero _)
    | succ m =>
      simp only [readHeadersF]
      by_cases he : ((readLine s).2.2 || isNewLine a (readLine s).1)
      · simp [he]
      · simp only [he, Bool.false_eq_true, if_false]
        by_cases hc : (readLine s).1 == crlfL
        · simp [hc]
        · simp only [hc, Bool.false_eq_true, if_false]
          have hef : (readLine s).2.2 = false := by
            cases hx : (readLine s).2.2
            · rfl
            · exact absurd (by simp [hx]) he
          have hlt := readLine_not_eof_lt s hef
          cases hp : parseHeaderField (readLine s).1 with
          | error e => simp [hp]
          | ok nv => simp only [hp]; exact ih m (readLine s).2.1 _ (by omega) (by omega)

/-- Accumulating decimal digits with `strconv`'s step function computes
the digit string's value. -/
theorem foldl_digitStep_dec (cs : List Char) :
    cs.all isDecDigit = true → ∀ n : Nat,
      cs.foldl (digitStep 10) (some n) =
        some (cs.foldl (fun n c => n * 10 + (c.toNat - 48)) n) := by
  induction cs with
  | nil => intro _ n; rfl
  | cons c cs ih =>
    intro h n
    simp only [List.all_cons, Bool.and_eq_true] at h
    have hd : digitStep 10 (some n) c = some (n * 10 + (c.toNat - 48)) := by
      have h1 := h.1
      unfold isDecDigit at h1
      simp only [Bool.and_eq_true, decide_eq_true_eq] at h1
      have e2 : c.toNat - 48 < 10 := by omega
      simp [digitStep, digitVal, h1.1, h1.2, e2]
    rw [List.foldl_cons, hd, ih h.2, List.foldl_cons]

/-- Accumulating hexadecimal digits with `strconv`'s step function
computes the digit string's value. -/
theorem foldl_digitStep_hex (cs : List Char) :
    cs.all isHexDigit = true → ∀ n : Nat,
      cs.foldl (digitStep 16) (some n) =
        some (cs.foldl (fun n c => n * 16 + hexDigitValue c) n) := by
  induction cs with
  | nil => intro _ n; rfl
  | cons c cs ih =>
    intro h n
    simp only [List.all_cons, Bool.and_eq_true] at h
    have hd : digitStep 16 (some n) c = some (n * 16 + hexDigitValue c) := by
      have h1 := h.1
      unfold isHexDigit isDecDigit at h1
      simp only [Bool.or_eq_true, Bool.and_eq_true, decide_eq_true_eq] at h1
      unfold digitStep digitVal hexDigitValue
      rcases h1 with (⟨ha, hb⟩ | ⟨ha, hb⟩) | ⟨ha, hb⟩
      · have e2 : c.toNat - 48 < 16 := by omega
        simp [ha, hb, e2]
      · have e1 : ¬ c.toNat ≤ 57 := by omega
        have e2 : c.toNat ≤ 122 := by omega
        have e3 : c.toNat - 97 + 10 < 16 := by omega
        have e4 : ¬ c.toNat ≤ 70 := by omega
        simp [ha, hb, e1, e2, e3, e4]
        omega
      · have e1 : ¬ c.toNat ≤ 57 := by omega
        have e2 : ¬ 97 ≤ c.toNat := by omega
        have e3 : c.toNat ≤ 90 := by omega
        have e4 : c.toNat - 65 + 10 < 16 := by omega
        simp [ha, hb, e1, e2, e3, e4]
        omega
    rw [List.foldl_cons, hd, ih h.2, List.foldl_cons]

/-- A numeral starting with anything but a sign keeps all its characters
after sign splitting. -/
theorem splitSign_digit (c : Char) (rest : List Char)
    (h1 : (c == '+') = false) (h2 : (c == '-') = false) :
    splitSign (c :: rest) = (false, c :: rest) := by
  simp [splitSign, h1, h2]

/-- On a nonempty all-hex-digit string whose value fits in `int64`,
`strconv.ParseInt` base 16 succeeds with the string's hex value. -/
theorem parseIntGo_hex (cs : List Char) (hne : cs ≠ [])
    (hall : cs.all isHexDigit = true) (hlt : hexValue cs < 2 ^ 63) :
    parseIntGo 16 cs = some ((hexValue cs : Nat) : Int) := by
  obtain ⟨c, rest, rfl⟩ := List.exists_cons_of_ne_nil hne
  have hc : isHexDigit c = true := by
    simp only [List.all_cons, Bool.and_eq_true] at hall
    exact hall.1
  have hplus : (c == '+') = false := by
    apply beq_eq_false_iff_ne.mpr
    intro he; subst he; revert hc; decide
  have hminus : (c == '-') = false := by
    apply beq_eq_false_iff_ne.mpr
    intro he; subst he; revert hc; decide
  have huint : parseUintDigits 16 (c :: rest) = some (hexValue (c :: rest)) := by
    simp only [parseUintDigits, List.isEmpty_cons, Bool.false_eq_true, if_false]
    exact foldl_digitStep_hex _ hall 0
  simp only [parseIntGo, List.isEmpty_cons, Bool.false_eq_true, if_false,
    splitSign_digit c rest hplus hminus, huint]
  have g1 : ¬ (hexValue (c :: rest) > 2 ^ 64 - 1) := by omega
  have g2 : ¬ (hexValue (c :: rest) > 2 ^ 63 - 1) := by omega
  simp [g1, g2]
  omega

/-- On a nonempty all-decimal-digit string whose value fits in `int64`,
the error-discarding `strconv.Atoi` yields the string's decimal value. -/
theorem atoiVal_dec (cs : List Char) (hne : cs ≠ [])
    (hall : cs.all isDecDigit = true) (hlt : decValue cs < 2 ^ 63) :
    atoiVal cs = ((decValue cs : Nat) : Int) := by
  obtain ⟨c, rest, rfl⟩ := List.exists_cons_of_ne_nil hne
  have hc : isDecDigit c = true := by
    simp only [List.all_cons, Bool.and_eq_true] at hall
    exact hall.1
  have hplus : (c == '+') = false := by
    apply beq_eq_false_iff_ne.mpr
    intro he; subst he; revert hc; decide
  have hminus : (c == '-') = false := by
    apply beq_eq_false_iff_ne.mpr
    intro he; subst he; revert hc; decide
  have huint : parseUintDigits 10 (c :: rest) = some (decValue (c :: rest)) := by
    simp only [parseUintDigits, List.isEmpty_cons, Bool.false_eq_true, if_false]
    exact foldl_digitStep_dec _ hall 0
  simp only [atoiVal, List.isEmpty_cons, Bool.false_eq_true, if_false,
    splitSign_digit c rest hplus hminus, huint]
  unfold clampInt64
  rw [if_neg (by omega), if_neg (by omega)]

/-- C1: on the stream `"GET / HTTP/1.1\r\nHost: www.example.com\r\n\r\n"`,
`ParseRequest` returns without error but returns the nil request
(`return nil, nil`), not a populated message; moreover the request line
parser keeps the carriage return in the protocol token
(`"HTTP/1.1\r"`), because only a trailing `"\n"` is stripped.  This
evaluates the code at the claim's input, exhibiting the divergence from
the claimed behaviour. -/
theorem c1_parseRequest_get_returns_nil :
    parseRequest false
        "GET / HTTP/1.1\r\nHost: www.example.com\r\n\r\n".toList = .ok none
    ∧ parseRequestLine "GET / HTTP/1.1\r\n".toList =
        .ok ("GET".toList, "/".toList, "HTTP/1.1\r".toList) :=
  ⟨by decide, by decide⟩

/-- C2: serializing the test request with an empty body yields the
start-line and header lines but NOT the claimed single blank CRLF
terminator line: `SerializeRequest` returns before writing `"\r\n"`
whenever the body is empty, diverging from the claimed exact bytes (and
from the repository's own `TestSerializeRequest`). -/
theorem c2_serializeRequest_empty_body_drops_terminator :
    serializeRequest c2Request =
      some (.ok
        "GET / HTTP/1.1\r\nHost: example.com\r\nTransfer-Encoding: gzip, chunked\r\n".toList)
    ∧ serializeRequest c2Request ≠
      some (.ok
        "GET / HTTP/1.1\r\nHost: example.com\r\nTransfer-Encoding: gzip, chunked\r\n\r\n".toList) :=
  ⟨by decide, by decide⟩

/-- C3: a malformed chunk-size line (`"xyz\r\n"`) and a malformed
`Content-Length` (`"abc"`) are silently swallowed by
`determineBodyLength`, which resolves both to length 0 (its return type
has no error channel at all), and a full parse over a malformed
`Content-Length` completes without any error — contradicting the claimed
`MalformedChunkSize` / `MalformedContentLength` failures. -/
theorem c3_determineBodyLength_swallows_parse_errors :
    determineBodyLength
        [("Transfer-Encoding".toList, ["gzip, chunked".toList])]
        "xyz\r\n".toList = (0, [])
    ∧ determineBodyLength [("Content-Length".toList, ["abc".toList])] [] =
        (0, [])
    ∧ parseRequest false
        "GET / HTTP/1.1\r\nContent-Length: abc\r\n\r\n".toList = .ok none :=
  ⟨by decide, by decide, by decide⟩

/-- C4: body-length resolution: with `Content-Length` a decimal numeral
and no `Transfer-Encoding`, the resolved length is its base-10 value;
with `Transfer-Encoding` present, one further line is read and its hex
value (trailing whitespace ignored) is the length, regardless of any
`Content-Length`; with neither header the length is 0. -/
theorem c4_determineBodyLength_precedence :
    (∀ (hdr : Header) (s : List Char),
      headerGet hdr "Transfer-Encoding".toList = [] →
      headerGet hdr "Content-Length".toList ≠ [] →
      (headerGet hdr "Content-Length".toList).all isDecDigit = true →
      decValue (headerGet hdr "Content-Length".toList) < 2 ^ 63 →
      determineBodyLength hdr s =
        ((decValue (headerGet hdr "Content-Length".toList) : Int), s))
    ∧ (∀ (hdr : Header) (s line rest : List Char),
      headerGet hdr "Transfer-Encoding".toList ≠ [] →
      readLine s = (line, rest, false) →
      trimRightSpace line ≠ [] →
      (trimRightSpace line).all isHexDigit = true →
      hexValue (trimRightSpace line) < 2 ^ 63 →
      determineBodyLength hdr s = ((hexValue (trimRightSpace line) : Int), rest))
    ∧ (∀ (hdr : Header) (s : List Char),
      headerGet hdr "Transfer-Encoding".toList = [] →
      headerGet hdr "Content-Length".toList = [] →
      determineBodyLength hdr s = (0, s)) := by
  refine ⟨?_, ?_, ?_⟩
  · intro hdr s hTE hCL hall hlt
    have hb : (headerGet hdr "Content-Length".toList != ([] : List Char)) = true :=
      bne_iff_ne.mpr hCL
    simp only [determineBodyLength, hTE, bne_self_eq_false, Bool.false_eq_true,
      if_false, hb, if_true]
    rw [atoiVal_dec _ hCL hall hlt]
  · intro hdr s line rest hTE hrl hne hall hlt
    have hb : (headerGet hdr "Transfer-Encoding".toList != ([] : List Char)) = true :=
      bne_iff_ne.mpr hTE
    simp only [determineBodyLength, hb, if_true, hrl]
    simp only [Bool.false_eq_true, if_false]
    rw [parseIntGo_hex _ hne hall hlt]
  · intro hdr s hTE hCL
    simp only [determineBodyLength, hTE, hCL, bne_self_eq_false,
      Bool.false_eq_true, if_false]

/-- Witness for C4 at the spec's concrete inputs: `Content-Length: 2048`
alone resolves to 2048; with both headers present the chunk-size line
`"400\r\n"` wins, giving 0x400 = 1024; with neither header the length
is 0. -/
theorem c4_determineBodyLength_precedence_witness :
    determineBodyLength [("Content-Length".toList, ["2048".toList])] [] =
      (2048, [])
    ∧ determineBodyLength
        [("Transfer-Encoding".toList, ["gzip, chunked".toList]),
         ("Content-Length".toList, ["2048".toList])] "400\r\n".toList =
      (1024, [])
    ∧ determineBodyLength [] "x".toList = (0, "x".toList) := by
  refine ⟨?_, ?_, ?_⟩
  · exact (c4_determineBodyLength_precedence.1
      [("Content-Length".toList, ["2048".toList])] []
      (by decide) (by decide) (by decide) (by decide)).trans (by decide)
  · exact (c4_determineBodyLength_precedence.2.1
      [("Transfer-Encoding".toList, ["gzip, chunked".toList]),
       ("Content-Length".toList, ["2048".toList])]
      "400\r\n".toList "400\r\n".toList [] (by decide) (by decide)
      (by decide) (by decide) (by decide)).trans (by decide)
  · exact c4_determineBodyLength_precedence.2.2 [] "x".toList rfl rfl

/-- C5: on the stream `"HTTP/1.1 200 OK\r\n\r\n"`, `ParseResponse`
returns the nil response with nil error (the function is the stub
`return nil, nil`), not a response with version HTTP/1.1, status 200 and
reason OK as claimed. -/
theorem c5_parseResponse_returns_nil :
    parseResponse "HTTP/1.1 200 OK\r\n\r\n".toList = .ok none := rfl

/-- C6 counterexample: a well-formed request line and header followed by
end-of-stream (no blank terminator line) makes `ParseRequest` fail with
the `empty line after header section is missing` error, rather than
returning the message parsed so far as the claim states. -/
theorem c6_counterexample_eof_not_tolerated :
    parseRequest false "GET / HTTP/1.1\r\nHost: www.example.com\r\n".toList =
      .error .missingEmptyLine := by decide

/-- C6 (amended): whenever end-of-stream is reached while reading header
lines before any blank terminator line is seen (the header loop's last
line read contains no `'\n'`, which characterizes the end-of-stream
exit), `ParseRequest` fails with the `empty line after header section is
missing` error instead of returning the partial message. -/
theorem c6_amended_eof_before_blank_fails (allowLF : Bool) (s : List Char)
    (line0 s1 m u p lastLine : List Char) (hdr : Header) (s2 : List Char)
    (h1 : skipBlanks allowLF s = .ok (line0, s1))
    (h2 : parseRequestLine line0 = .ok (m, u, p))
    (h3 : readHeaders allowLF s1 [] = .ok (lastLine, hdr, s2))
    (h4 : lastLine.contains '\n' = false) :
    parseRequest allowLF s = .error .missingEmptyLine := by
  have hne : lastLine ≠ crlfL := by
    intro he
    rw [he] at h4
    exact absurd h4 (by decide)
  simp only [parseRequest, h1, h2, h3]
  rw [if_pos hne]

/-- Witness for C6 (amended) on the stream `"GET / HTTP/1.1\r\nA: b\r\n"`,
whose header phase ends at end-of-stream with last line `""`. -/
theorem c6_amended_eof_before_blank_fails_witness :
    parseRequest false "GET / HTTP/1.1\r\nA: b\r\n".toList =
      .error .missingEmptyLine :=
  c6_amended_eof_before_blank_fails false
    "GET / HTTP/1.1\r\nA: b\r\n".toList
    "GET / HTTP/1.1\r\n".toList "A: b\r\n".toList
    "GET".toList "/".toList "HTTP/1.1\r".toList
    [] [("A".toList, ["b".toList])] []
    (by decide) (by decide) (by decide) (by decide)

/-- C7 counterexample: a header line with zero content before the colon
(`":value\r\n"`) does NOT fail with a malformed-header-field error; it is
accepted with an empty header name, contradicting that part of the
claim. -/
theorem c7_counterexample_empty_name_accepted :
    parseHeaderField ":value\r\n".toList = .ok ([], "value".toList) := by
  decide

/-- C7 (amended): every header line is split at the first `':'` (so a
value may itself contain `':'`); a line containing no `':'` fails with
the invalid-header-field error; a line with zero content before the
`':'` is accepted, yielding an empty name. -/
theorem c7_amended_split_at_first_colon (line : List Char) :
    (line.contains ':' = false →
      parseHeaderField line = .error .badHeaderField)
    ∧ (line.contains ':' = true →
      parseHeaderField line =
        .ok (trimSpace (line.takeWhile (fun c => c != ':')),
          trimSpace (trimSuffixLF ((line.dropWhile (fun c => c != ':')).drop 1)))) := by
  constructor
  · intro h
    have hm : ':' ∉ line := by simpa using h
    simp [parseHeaderField, splitN2, hm]
  · intro h
    have hm : ':' ∈ line := by simpa using h
    simp [parseHeaderField, splitN2, hm]

/-- Witness for C7 (amended): `"Host: example.com:8080\r\n"` parses to
name `Host` and value `example.com:8080`, and the colonless
`"Content-Length 1024\r\n"` fails. -/
theorem c7_amended_split_at_first_colon_witness :
    parseHeaderField "Host: example.com:8080\r\n".toList =
      .ok ("Host".toList, "example.com:8080".toList)
    ∧ parseHeaderField "Content-Length 1024\r\n".toList =
      .error .badHeaderField :=
  ⟨((c7_amended_split_at_first_colon "Host: example.com:8080\r\n".toList).2
      (by decide)).trans (by decide),
    (c7_amended_split_at_first_colon "Content-Length 1024\r\n".toList).1
      (by decide)⟩

/-- C8: `isNewLine` itself behaves as claimed (strict mode accepts only
`"\r\n"` as blank, tolerant mode also `"\n"`), but an otherwise
well-formed request whose header-section terminator is a bare `"\n"`
does NOT parse successfully with tolerance enabled: the post-loop check
`line != "\r\n"` still rejects it, so `ParseRequest` fails with the
`empty line after header section is missing` error, contradicting the
function's own tolerance documentation. -/
theorem c8_isNewLine_tolerance_but_terminator_rejected :
    isNewLine false = (fun line => line == crlfL)
    ∧ isNewLine true = (fun line => line == crlfL || line == lfL)
    ∧ parseRequest true
        "GET / HTTP/1.1\r\nHost: www.example.com\r\n\n".toList =
      .error .missingEmptyLine :=
  ⟨rfl, rfl, by decide⟩

/-- C9: the LF-tolerance option is the package-level mutable variable
`allowLFLineEndings`, set by `AllowLFLineEndings` and read by every
parse: one and the same `ParseRequest` call gives different results
depending on the ambient global value left by the setter, so the option
is process-wide shared state, not a per-invocation parameter. -/
theorem c9_parse_result_depends_on_global_flag :
    parseRequest (AllowLFLineEndings true allowLFLineEndingsInit)
        "\nGET / HTTP/1.1\r\n\r\n".toList
      ≠ parseRequest (AllowLFLineEndings false allowLFLineEndingsInit)
        "\nGET / HTTP/1.1\r\n\r\n".toList := by decide

/-- C10: `SerializeRequest` drains the `Body` reader on every call: it is
undefined (nil-pointer dereference in `ioutil.ReadAll`) exactly when
`Body` is nil, and whenever the body read fails the function returns that
read error — for every request, including ones with no body content. -/
theorem c10_serializeRequest_always_reads_body (r : Request) :
    (serializeRequest r = none ↔ r.body = none)
    ∧ (∀ e : GErr, r.body = some (.error e) →
        serializeRequest r = some (.error e)) := by
  refine ⟨⟨?_, ?_⟩, ?_⟩
  · intro h
    cases hb : r.body with
    | none => rfl
    | some x =>
      cases x with
      | error e =>
        simp only [serializeRequest, hb] at h
        exact Option.noConfusion h
      | ok bs =>
        simp only [serializeRequest, hb] at h
        split at h <;> exact Option.noConfusion h
  · intro h
    simp only [serializeRequest, h]
  · intro e he
    simp only [serializeRequest, he]

/-- Witness for C10: a request whose body reader fails with EOF
serializes to that error, and a request with nil body is undefined. -/
theorem c10_serializeRequest_always_reads_body_witness :
    serializeRequest
        { method := "GET".toList
          url := "/".toList
          proto := "HTTP/1.1".toList
          header := []
          body := some (.error .errEOF) } = some (.error .errEOF)
    ∧ serializeRequest
        { method := "GET".toList
          url := "/".toList
          proto := "HTTP/1.1".toList
          header := []
          body := none } = none :=
  ⟨(c10_serializeRequest_always_reads_body _).2 .errEOF rfl,
    (c10_serializeRequest_always_reads_body _).1.mpr rfl⟩

end GoHttp
